import Mathlib

/-!
Verification of the on-demand feature transformation core of the feast Go
feature-serving client (`go/internal/feast/transformation/transformation_service.go`).

The Go code is shallowly embedded: byte buffers become `List Nat`, the `int64`
cursor of `ByteSliceWriter` becomes `Int`, fallible Go functions returning
`(T, error)` become `Except`-valued Lean functions, and a Go runtime panic is
modelled as a distinguished error constructor (so that "returns a handled
error" and "crashes" are distinguishable outcomes).
-/

namespace Feast

/-! ## Data model (`model.OnDemandFeatureView`, `onlineserving.FeatureVector`) -/

/-- A declared feature of a projection (`model.Feature`): only the name is
relevant to the reconciliation algorithm. -/
structure Feature where
  Name : String
deriving DecidableEq, Repr

/-- `model.FeatureViewProjection`: the ordered list of declared feature names. -/
structure FeatureViewProjection where
  Features : List Feature
deriving DecidableEq, Repr

/-- `model.BaseFeatureView`: name plus optional projection (`nil` in Go is `none`). -/
structure FeatureViewBase where
  Name : String
  Projection : Option FeatureViewProjection
deriving DecidableEq, Repr

/-- `model.OnDemandFeatureView`, restricted to the `Base` field that
`ExtractTransformationResponse` reads. -/
structure OnDemandFeatureView where
  Base : FeatureViewBase
deriving DecidableEq, Repr

/-- `serving.FieldStatus`. -/
inductive FieldStatus where
  | PRESENT
  | NULL_VALUE
  | NOT_FOUND
  | OUTSIDE_MAX_AGE
deriving DecidableEq, Repr

/-- `timestamppb.Timestamp`. A Go `nil` pointer is modelled by wrapping the
timestamp in `Option` where it occurs. -/
structure Timestamp where
  seconds : Int
  nanos : Int
deriving DecidableEq, Repr

/-- `onlineserving.FeatureVector`, polymorphic in the cell type of the arrow
column (`Values`). -/
structure FeatureVector (α : Type) where
  Name : String
  Values : List α
  Statuses : List FieldStatus
  Timestamps : List (Option Timestamp)
deriving DecidableEq, Repr

/-! ## ByteSliceWriter (`transformation_service.go` lines 165-206) -/

/-- `ByteSliceWriter`: a growable byte buffer with an `int64` cursor. -/
structure ByteSliceWriter where
  buf : List Nat
  offset : Int
deriving DecidableEq, Repr

/-- Errors returned by `ByteSliceWriter.Seek`. The payload of `outOfRange`
mirrors the Go format arguments `fmt.Errorf(..., offset, len(w.buf))`: the
seek argument (not the computed new offset) and the buffer length. -/
inductive SeekError where
  | outOfRange (offset : Int) (bufLen : Nat)
  | unsupportedMode (whence : Int)
deriving DecidableEq, Repr

/-- `io.SeekStart`. -/
def ioSeekStart : Int := 0
/-- `io.SeekCurrent`. -/
def ioSeekCurrent : Int := 1
/-- `io.SeekEnd`. -/
def ioSeekEnd : Int := 2

/-- `ByteSliceWriter.Seek` (lines 182-206), translated branch by branch.
On success Go returns the value of `w.offset` it just assigned together with
the updated receiver; both are returned here as a pair. Note that the
`io.SeekEnd` branch assigns `w.offset = offset` (the delta argument), exactly
as the Go source does on line 202. -/
def ByteSliceWriter.seek (w : ByteSliceWriter) (offset : Int) (whence : Int) :
    Except SeekError (Int × ByteSliceWriter) :=
  if whence = ioSeekStart then
    if w.offset ≠ offset ∧ (offset < 0 ∨ offset > (w.buf.length : Int)) then
      .error (.outOfRange offset w.buf.length)
    else
      .ok (offset, { w with offset := offset })
  else if whence = ioSeekCurrent then
    let newOffset := w.offset + offset
    if newOffset ≠ offset ∧ (newOffset < 0 ∨ newOffset > (w.buf.length : Int)) then
      .error (.outOfRange offset w.buf.length)
    else
      .ok (newOffset, { w with offset := newOffset })
  else if whence = ioSeekEnd then
    let newOffset := (w.buf.length : Int) + offset
    if newOffset ≠ offset ∧ (newOffset < 0 ∨ newOffset > (w.buf.length : Int)) then
      .error (.outOfRange offset w.buf.length)
    else
      .ok (offset, { w with offset := offset })
  else
    .error (.unsupportedMode whence)

/-- `ByteSliceWriter.Write` (lines 170-180). The slice expression
`w.buf[w.offset:]` panics in Go when the cursor is negative or beyond the
buffer; that runtime panic is modelled as `none`. Otherwise the method grows
the buffer when the tail is shorter than `p`, copies `p` over the bytes at
the cursor, advances the cursor and returns `(len p, nil)`. -/
def ByteSliceWriter.write (w : ByteSliceWriter) (p : List Nat) :
    Option (Nat × ByteSliceWriter) :=
  if 0 ≤ w.offset ∧ w.offset ≤ (w.buf.length : Int) then
    let off := w.offset.toNat
    let capacity := p.length
    let grown :=
      if w.buf.length - off < capacity then
        w.buf ++ List.replicate (capacity - (w.buf.length - off)) 0
      else
        w.buf
    some (capacity,
      { buf := grown.take off ++ p ++ grown.drop (off + capacity),
        offset := w.offset + capacity })
  else
    none

/-! ## strings.Split and the reconciliation loop
(`ExtractTransformationResponse`, lines 105-163)

The arrow IPC decode at the head of `ExtractTransformationResponse` is an
external library call; the loop over the decoded record's schema fields
(lines 123-161) is embedded below over the decoded record given as a list of
`(field name, column)` pairs. -/

/-- Whether `sep` occurs at the head of `l` (helper for the Go
`strings.Split` embedding). -/
def matchesAt : List Char → List Char → Bool
  | [], _ => true
  | _ :: _, [] => false
  | s :: ss, c :: cs => s == c && matchesAt ss cs

/-- Worker for `goSplit`: scans `l` left to right, cutting at each
non-overlapping occurrence of the separator `c0 :: sepRest`; `acc` holds the
reversed characters of the current segment. The `fuel` argument (called with
`l.length`, which bounds the number of scanning steps) makes the recursion
structural so that the definition evaluates inside the kernel. -/
def goSplitAux (c0 : Char) (sepRest : List Char) :
    Nat → List Char → List Char → List (List Char)
  | 0, _, acc => [acc.reverse]
  | _ + 1, [], acc => [acc.reverse]
  | fuel + 1, c :: rest, acc =>
    if matchesAt (c0 :: sepRest) (c :: rest) then
      acc.reverse :: goSplitAux c0 sepRest fuel (rest.drop sepRest.length) []
    else
      goSplitAux c0 sepRest fuel rest (c :: acc)

/-- Go `strings.Split(s, sep)` for a non-empty separator: the substrings of
`s` between consecutive non-overlapping occurrences of `sep`. (The repository
only ever splits on the non-empty separator `"__"`, so the empty-separator
behaviour of the Go function is irrelevant and mapped to `[s]`.) -/
def goSplit (s sep : String) : List String :=
  match sep.data with
  | [] => [s]
  | c0 :: sepRest => (goSplitAux c0 sepRest s.data.length s.data []).map String.mk

/-- Errors of the embedded reconciliation loop. `panicIndexOutOfRange` models
the Go runtime panic raised by `strings.Split(field.Name, "__")[1]` when the
split yields fewer than two segments — a crash, not an error value returned
to the caller. -/
inductive ExtractErr where
  | panicIndexOutOfRange
deriving DecidableEq, Repr

/-- Lines 127-132: the bare feature name used for projection matching. With
`fullFeatureNames` set the code indexes `strings.Split(fieldName, "__")[1]`;
index 1 of a too-short list is the panic. -/
def resolveFeatureName (fullFeatureNames : Bool) (fieldName : String) :
    Except ExtractErr String :=
  if fullFeatureNames then
    match (goSplit fieldName "__").get? 1 with
    | some n => .ok n
    | none => .error .panicIndexOutOfRange
  else
    .ok fieldName

/-- Lines 124-141: `dropFeature` starts `true`; with no projection it is
unconditionally cleared, otherwise it is cleared exactly when the resolved
bare name equals some projection feature's name. Returns whether the column
is kept. -/
def keepField (fv : OnDemandFeatureView) (fullFeatureNames : Bool) (fieldName : String) :
    Except ExtractErr Bool :=
  match fv.Base.Projection with
  | none => .ok true
  | some proj =>
    match resolveFeatureName fullFeatureNames fieldName with
    | .error e => .error e
    | .ok featureName => .ok (proj.Features.any (fun f => featureName == f.Name))

/-- Lines 147-153: `numRows` statuses, all `PRESENT`. -/
def presentStatuses (numRows : Nat) : List FieldStatus :=
  List.replicate numRows .PRESENT

/-- Lines 147-153: `numRows` timestamps, each `timestamppb.Now()` — the
instant of reconciliation, passed in as `now`, never `nil`. -/
def nowTimestamps (numRows : Nat) (now : Timestamp) : List (Option Timestamp) :=
  List.replicate numRows (some now)

/-- Lines 155-160: the `FeatureVector` built for a kept column; its name is
the original (possibly namespaced) field name. -/
def mkTransformedVector (numRows : Nat) (now : Timestamp) (field : String × List α) :
    FeatureVector α :=
  { Name := field.1
    Values := field.2
    Statuses := presentStatuses numRows
    Timestamps := nowTimestamps numRows now }

/-- The loop of `ExtractTransformationResponse` (lines 123-161) over the
decoded record's fields in schema order. -/
def extractVectors (fv : OnDemandFeatureView) (fullFeatureNames : Bool) (numRows : Nat)
    (now : Timestamp) : List (String × List α) → Except ExtractErr (List (FeatureVector α))
  | [] => .ok []
  | field :: rest =>
    match keepField fv fullFeatureNames field.1 with
    | .error e => .error e
    | .ok keep =>
      match extractVectors fv fullFeatureNames numRows now rest with
      | .error e => .error e
      | .ok tail =>
        if keep then .ok (mkTransformedVector numRows now field :: tail) else .ok tail

/-- The bare name a field matches against under `fullFeatureNames`: the
second `"__"` segment (total version used in C3's statement). -/
def bareSegment (fieldName : String) : String :=
  ((goSplit fieldName "__").get? 1).getD ""

/-- Whether a column named `fieldName` survives projection filtering under
`fullFeatureNames` (the characterization C3 asserts). -/
def keptByProjection (proj : FeatureViewProjection) (fieldName : String) : Bool :=
  proj.Features.any (fun f => bareSegment fieldName == f.Name)

/-! ## Columnar record construction (`GetTransformation`, lines 40-65) -/

/-- One already-computed feature vector as fed into record construction
(only its name and arrow column matter for the record's fields). -/
structure InputFeatureVector (α : Type) where
  Name : String
  Values : List α
deriving DecidableEq, Repr

/-- The conversion loop shared by the request-data and entity-rows passes
(lines 47-63): convert each mapping entry's `RepeatedValue` into an arrow
column via `types.ProtoValuesToArrowArray` (abstracted as `convert`),
returning the first conversion error if any. -/
def convertColumns (convert : ρ → Except ε (List α)) :
    List (String × ρ) → Except ε (List (String × List α))
  | [] => .ok []
  | (n, v) :: rest =>
    match convert v with
    | .error e => .error e
    | .ok arr =>
      match convertColumns convert rest with
      | .error e => .error e
      | .ok tail => .ok ((n, arr) :: tail)

/-- Lines 40-65: the input record's `(fieldName, column)` pairs — feature
vectors first in input order, then converted request-data entries, then
converted entity-row entries; a conversion error in either pass aborts the
build (the request-data pass is attempted first, as in the source). The
mappings are given as association lists in Go map iteration order. -/
def buildInputRecord (convert : ρ → Except ε (List α))
    (features : List (InputFeatureVector α))
    (requestData entityRows : List (String × ρ)) :
    Except ε (List (String × List α)) :=
  match convertColumns convert requestData with
  | .error e => .error e
  | .ok reqCols =>
    match convertColumns convert entityRows with
    | .error e => .error e
    | .ok entCols =>
      .ok (features.map (fun v => (v.Name, v.Values)) ++ reqCols ++ entCols)

/-- Concrete converter used by the C6 witness: a `some` column converts to
itself, `none` fails. -/
def demoConvert : Option (List Nat) → Except String (List Nat)
  | some l => .ok l
  | none => .error "conversion failed"

/-! ## Transport skeleton of `GetTransformation` (lines 68-103) -/

/-- Connection/transport events recorded by the embedding of
`GetTransformation`: a successful `grpc.Dial` opens the connection, the
`defer conn.Close()` registered immediately after it closes the connection on
every exit path reached beyond that point, and `client.TransformFeatures` is
the RPC call. -/
inductive ConnEvent where
  | connOpened
  | connClosed
  | rpcCalled
deriving DecidableEq, Repr

/-- Outcomes of the external effects of `GetTransformation`, supplied as an
oracle: `ipc.NewFileWriter` (line 69), `arrowWriter.Write` (line 73, whose
success yields the serialized bytes `recordValueWriter.buf` of line 77),
`grpc.Dial` (line 89) and `client.TransformFeatures` (line 96, mapping the
request payload to the raw response bytes). -/
structure TransformCallEnv (ε : Type) where
  newFileWriter : Except ε Unit
  writeRecord : Except ε (List Nat)
  dial : Except ε Unit
  rpcCall : List Nat → Except ε (List Nat)

/-- The Go return value `([]*onlineserving.FeatureVector, error)` — `nil`
slice and `nil` error are `none` — together with the recorded connection
events. -/
structure GoCallResult (Out ε : Type) where
  vectors : Option Out
  err : Option ε
  events : List ConnEvent
deriving DecidableEq, Repr

/-- `GetTransformation` after the input record is built (lines 68-103):
serialize through the arrow writer, dial, issue the single RPC, extract. Each
`return nil, err` of the source is a `⟨none, some e, _⟩` here; the final
`return ExtractTransformationResponse(...)` result is passed through
unchanged. No branch retries, and every branch past the successful dial
carries the `connClosed` event contributed by `defer conn.Close()`. -/
def getTransformation (env : TransformCallEnv ε) (extract : List Nat → Except ε Out) :
    GoCallResult Out ε :=
  match env.newFileWriter with
  | .error e => ⟨none, some e, []⟩
  | .ok _ =>
    match env.writeRecord with
    | .error e => ⟨none, some e, []⟩
    | .ok payload =>
      match env.dial with
      | .error e => ⟨none, some e, []⟩
      | .ok _ =>
        match env.rpcCall payload with
        | .error e => ⟨none, some e, [.connOpened, .rpcCalled, .connClosed]⟩
        | .ok responseBytes =>
          match extract responseBytes with
          | .error e => ⟨none, some e, [.connOpened, .rpcCalled, .connClosed]⟩
          | .ok vecs => ⟨some vecs, none, [.connOpened, .rpcCalled, .connClosed]⟩

/-- Concrete oracle used by the C4 witness: serialization succeeds and the
dial fails. -/
def demoEnvDialFail : TransformCallEnv String :=
  { newFileWriter := .ok ()
    writeRecord := .ok [1]
    dial := .error "dial failed"
    rpcCall := fun _ => .ok [2] }

/-! ## Request-value coercion (`repeatedValue`, spec-modelled)

The implementations of `repeatedValue.UnmarshalJSON` and
`typecastToEntitySchemaType` live in the HTTP server package, which is not in
`src/` — only their tests are. The definitions below are modelled from the
spec (§4.5) and checked against the in-`src/` tests `TestUnmarshalJSON` and
`testTypecastToCorrectTypeWithInt32Val`. JSON numbers are modelled as exact
rationals, which is faithful for deciding the has-fractional-part test and
for the integer payloads the claims evaluate. -/

/-- Coercion errors of the request-value parser and the narrowing step. -/
inductive CoerceErr where
  | typeInference
  | rangeError
deriving DecidableEq, Repr

/-- A decoded JSON value: number, string, boolean, or array. -/
inductive JsonVal where
  | num (q : ℚ)
  | str (s : String)
  | boolean (b : Bool)
  | arr (elems : List JsonVal)

/-- The Go `repeatedValue` struct: at most one representation list is
non-empty (a Go `nil` slice is `[]`). `int32Val` is the target of the
`INT32` narrowing exercised by `testTypecastToCorrectTypeWithInt32Val`. -/
structure RepeatedValueGo where
  int64Val : List Int := []
  doubleVal : List ℚ := []
  stringVal : List String := []
  boolVal : List Bool := []
  int64ListVal : List (List Int) := []
  doubleListVal : List (List ℚ) := []
  stringListVal : List (List String) := []
  boolListVal : List (List Bool) := []
  int32Val : List Int := []
deriving DecidableEq, Repr

/-- Whether a JSON number has no fractional part and is exactly representable
as a 64-bit integer. -/
def isExactInt64 (q : ℚ) : Bool :=
  q.den = 1 && decide (-(2 ^ 63) ≤ q.num) && decide (q.num < 2 ^ 63)

/-- Coerce one element to an `int64` (fails on non-numbers and on numbers
with a fractional part: a mixed array is a coercion error). -/
def asInt64 : JsonVal → Except CoerceErr Int
  | .num q => if isExactInt64 q then .ok q.num else .error .typeInference
  | _ => .error .typeInference

/-- Coerce one element to a `float64` (modelled exactly as a rational). -/
def asDouble : JsonVal → Except CoerceErr ℚ
  | .num q => .ok q
  | _ => .error .typeInference

/-- Coerce one element to a string. -/
def asGoString : JsonVal → Except CoerceErr String
  | .str s => .ok s
  | _ => .error .typeInference

/-- Coerce one element to a boolean. -/
def asBool : JsonVal → Except CoerceErr Bool
  | .boolean b => .ok b
  | _ => .error .typeInference

/-- Traverse a list with a fallible coercion, returning the first error. -/
def mapExcept (f : χ → Except ε σ) : List χ → Except ε (List σ)
  | [] => .ok []
  | x :: rest =>
    match f x with
    | .error e => .error e
    | .ok y =>
      match mapExcept f rest with
      | .error e => .error e
      | .ok ys => .ok (y :: ys)

/-- Coerce one element to a nested `int64` list (a non-array, or an array
nested deeper than one level, is a coercion error). -/
def asInt64List : JsonVal → Except CoerceErr (List Int)
  | .arr inner => mapExcept asInt64 inner
  | _ => .error .typeInference

/-- Coerce one element to a nested `float64` list. -/
def asDoubleList : JsonVal → Except CoerceErr (List ℚ)
  | .arr inner => mapExcept asDouble inner
  | _ => .error .typeInference

/-- Coerce one element to a nested string list. -/
def asGoStringList : JsonVal → Except CoerceErr (List String)
  | .arr inner => mapExcept asGoString inner
  | _ => .error .typeInference

/-- Coerce one element to a nested boolean list. -/
def asBoolList : JsonVal → Except CoerceErr (List Bool)
  | .arr inner => mapExcept asBool inner
  | _ => .error .typeInference

/-- Modelled from the spec: `repeatedValue.UnmarshalJSON` (implementation not
in `src/`, only its tests). The representation is inferred from the first
element of the decoded JSON array — integral number, fractional number,
string, boolean, or an array classified by the first element of the first
nested array (one nesting level only); every element must then coerce to the
inferred kind. An empty array populates no representation. -/
def unmarshalRepeatedValue (xs : List JsonVal) : Except CoerceErr RepeatedValueGo :=
  match xs with
  | [] => .ok {}
  | first :: _ =>
    match first with
    | .num q =>
      if isExactInt64 q then
        match mapExcept asInt64 xs with
        | .error e => .error e
        | .ok vs => .ok { int64Val := vs }
      else
        match mapExcept asDouble xs with
        | .error e => .error e
        | .ok vs => .ok { doubleVal := vs }
    | .str _ =>
      match mapExcept asGoString xs with
      | .error e => .error e
      | .ok vs => .ok { stringVal := vs }
    | .boolean _ =>
      match mapExcept asBool xs with
      | .error e => .error e
      | .ok vs => .ok { boolVal := vs }
    | .arr inner =>
      match inner with
      | [] => .error .typeInference
      | innerFirst :: _ =>
        match innerFirst with
        | .num q =>
          if isExactInt64 q then
            match mapExcept asInt64List xs with
            | .error e => .error e
            | .ok vs => .ok { int64ListVal := vs }
          else
            match mapExcept asDoubleList xs with
            | .error e => .error e
            | .ok vs => .ok { doubleListVal := vs }
        | .str _ =>
          match mapExcept asGoStringList xs with
          | .error e => .error e
          | .ok vs => .ok { stringListVal := vs }
        | .boolean _ =>
          match mapExcept asBoolList xs with
          | .error e => .error e
          | .ok vs => .ok { boolListVal := vs }
        | .arr _ => .error .typeInference

/-- 1 if the representation list is populated (non-empty), else 0. -/
def popCount (l : List γ) : Nat :=
  if l.isEmpty then 0 else 1

/-- How many of the nine representation lists are populated. -/
def populatedCount (u : RepeatedValueGo) : Nat :=
  popCount u.int64Val + popCount u.doubleVal + popCount u.stringVal + popCount u.boolVal
    + popCount u.int64ListVal + popCount u.doubleListVal + popCount u.stringListVal
    + popCount u.boolListVal + popCount u.int32Val

/-! ## Schema narrowing (`typecastToEntitySchemaType`, spec-modelled) -/

/-- `types.ValueType_Enum`, restricted to the scalar kinds the narrowing
claims exercise. -/
inductive ValueTypeEnum where
  | INT32
  | INT64
  | DOUBLE
  | STRING
  | BOOL
deriving DecidableEq, Repr

/-- Smallest 32-bit signed integer. -/
def int32Min : Int := -(2 ^ 31)
/-- Largest 32-bit signed integer. -/
def int32Max : Int := 2 ^ 31 - 1

/-- Modelled from the spec: `typecastToEntitySchemaType` (implementation not
in `src/`, only its test). Narrowing an int64 column to a declared `INT32`
moves the values into the 32-bit representation, clearing the 64-bit one,
and fails with a range error when some element does not fit; a column whose
representation already matches the declared type (no int64 column to narrow,
or a declared 64-bit type) is left unchanged. -/
def typecastToEntitySchemaType (u : RepeatedValueGo) (t : ValueTypeEnum) :
    Except CoerceErr RepeatedValueGo :=
  match t with
  | .INT32 =>
    if u.int64Val.isEmpty then
      .ok u
    else if u.int64Val.all (fun v => decide (int32Min ≤ v) && decide (v ≤ int32Max)) then
      .ok { u with int64Val := [], int32Val := u.int64Val }
    else
      .error .rangeError
  | _ => .ok u

/-! ## Theorems settling the claims -/

/-- C1: the spec requires that `seek(offset, mode)` sets the cursor to, and
returns, the resulting absolute offset, so `seek(0, FROM_END)` on a buffer of
length 3 must yield 3; and that a non-zero-delta seek past the end fails. The
code instead assigns and returns the delta argument in the `FROM_END` branch
(cursor becomes 0, return value 0, not 3), and at cursor 0 accepts
`seek(5, FROM_CURRENT)` on an empty buffer even though the resulting offset 5
exceeds the length 0. Both evaluations below exhibit the divergence. -/
theorem seek_violates_absolute_offset_contract :
    ByteSliceWriter.seek ⟨[0, 0, 0], 1⟩ 0 ioSeekEnd = .ok (0, ⟨[0, 0, 0], 0⟩)
    ∧ ByteSliceWriter.seek ⟨[], 0⟩ 5 ioSeekCurrent = .ok (5, ⟨[], 5⟩) := by
  constructor <;> rfl

/-- C10: when the cursor is 0, `Seek(delta, FROM_CURRENT)` succeeds for every
delta (the guard compares the computed offset against the delta argument, and
the two coincide exactly when the cursor is 0), setting the cursor to the
delta; likewise on an empty buffer `Seek(delta, FROM_END)` succeeds for every
delta. Consequently a successful seek can leave the cursor outside
`[0, buffer length]`, as the last conjunct shows concretely. -/
theorem seek_guard_skipped_at_zero_cursor :
    (∀ (buf : List Nat) (delta : Int),
      ByteSliceWriter.seek ⟨buf, 0⟩ delta ioSeekCurrent = .ok (delta, ⟨buf, delta⟩))
    ∧ (∀ delta : Int,
      ByteSliceWriter.seek ⟨[], 0⟩ delta ioSeekEnd = .ok (delta, ⟨[], delta⟩))
    ∧ (ByteSliceWriter.seek ⟨[], 0⟩ 5 ioSeekCurrent = .ok (5, ⟨[], 5⟩)
        ∧ ¬ ((5 : Int) ≤ (([] : List Nat).length : Int))) := by
  refine ⟨fun buf delta => ?_, fun delta => ?_, by rfl, by decide⟩
  · simp [ByteSliceWriter.seek, ioSeekStart, ioSeekCurrent]
  · simp [ByteSliceWriter.seek, ioSeekStart, ioSeekCurrent, ioSeekEnd]

/-- C7: for a writer whose cursor lies within `[0, buffer length]`, `Write`
never fails: it returns `len p` and the writer whose buffer is the old bytes
before the cursor, then `p`, then whatever old bytes lie beyond the written
region (growing the buffer when the write extends past the current length),
with the cursor advanced by `len p`. -/
theorem write_copies_at_cursor (w : ByteSliceWriter) (p : List Nat)
    (h0 : 0 ≤ w.offset) (hL : w.offset ≤ (w.buf.length : Int)) :
    w.write p = some (p.length,
      { buf := w.buf.take w.offset.toNat ++ p ++ w.buf.drop (w.offset.toNat + p.length),
        offset := w.offset + p.length }) := by
  have hoff : w.offset.toNat ≤ w.buf.length := by omega
  unfold ByteSliceWriter.write
  rw [if_pos ⟨h0, hL⟩]
  dsimp only
  by_cases hgrow : w.buf.length - w.offset.toNat < p.length
  · rw [if_pos hgrow]
    have hlen : w.buf.length ≤ w.offset.toNat + p.length := by omega
    have htake : (w.buf ++ List.replicate (p.length - (w.buf.length - w.offset.toNat)) 0).take
        w.offset.toNat = w.buf.take w.offset.toNat := by
      rw [List.take_append_of_le_length hoff]
    have hdropR : w.buf.drop (w.offset.toNat + p.length) = [] :=
      List.drop_eq_nil_of_le hlen
    have hdropL : (w.buf ++ List.replicate (p.length - (w.buf.length - w.offset.toNat)) 0).drop
        (w.offset.toNat + p.length) = [] := by
      apply List.drop_eq_nil_of_le
      simp
      omega
    simp only [htake, hdropL, hdropR]
  · rw [if_neg hgrow]

/-- Witness for C7 at a concrete writer: buffer `[1, 2, 3]`, cursor 2,
writing `[7, 8, 9]` grows the buffer to `[1, 2, 7, 8, 9]` and moves the
cursor to 5. -/
theorem write_copies_at_cursor_witness :
    ByteSliceWriter.write ⟨[1, 2, 3], 2⟩ [7, 8, 9] = some (3, ⟨[1, 2, 7, 8, 9], 5⟩) := by
  have h := write_copies_at_cursor ⟨[1, 2, 3], 2⟩ [7, 8, 9] (by decide) (by decide)
  simpa using h

/-- C2: with a declared projection and `fullFeatureNames=true`, a response
field whose name has no `"__"` separator is required by the spec to produce a
handled reconciliation error; evaluating the embedded code shows it instead
reaches the index-out-of-range panic (`strings.Split("feature1", "__")` has a
single segment and index 1 is accessed). -/
theorem extract_panics_on_missing_separator :
    extractVectors (α := Nat) ⟨⟨"view", some ⟨[⟨"feature1"⟩]⟩⟩⟩ true 1 ⟨0, 0⟩
      [("feature1", [7])] = .error .panicIndexOutOfRange := by
  rfl

/-- C3: when a projection is declared and `fullFeatureNames=true` (and every
field name splits into at least two `"__"` segments, so no panic occurs),
reconciliation keeps exactly the columns whose bare name (second `"__"`
segment) matches a projection feature name, in order, and each kept vector is
named by the original namespaced field name; with no projection declared,
every column is kept. -/
theorem extract_projection_filtering (proj : FeatureViewProjection) (viewName : String)
    (record : List (String × List α)) (numRows : Nat) (now : Timestamp)
    (hsep : ∀ p ∈ record, 2 ≤ (goSplit p.1 "__").length) :
    extractVectors ⟨⟨viewName, some proj⟩⟩ true numRows now record =
      .ok ((record.filter (fun p => keptByProjection proj p.1)).map
            (mkTransformedVector numRows now))
    ∧ extractVectors ⟨⟨viewName, none⟩⟩ true numRows now record =
      .ok (record.map (mkTransformedVector numRows now)) := by
  constructor
  · induction record with
    | nil => rfl
    | cons field rest ih =>
      have hfield := hsep field (List.mem_cons_self field rest)
      have hrest : ∀ p ∈ rest, 2 ≤ (goSplit p.1 "__").length := fun p hp =>
        hsep p (List.mem_cons_of_mem field hp)
      have hlt : 1 < (goSplit field.1 "__").length := by omega
      obtain ⟨v, hv⟩ : ∃ v, (goSplit field.1 "__")[1]? = some v :=
        ⟨_, List.getElem?_eq_getElem hlt⟩
      have hv' : (goSplit field.1 "__").get? 1 = some v := by
        rw [List.get?_eq_getElem?]
        exact hv
      have hbare : bareSegment field.1 = v := by
        simp [bareSegment, hv]
      simp only [extractVectors, keepField, resolveFeatureName, if_pos rfl, hv', ih hrest,
        List.filter_cons, keptByProjection, hbare]
      by_cases hkeep : (proj.Features.any (fun f => v == f.Name)) = true
      · simp [hkeep]
      · simp only [Bool.not_eq_true] at hkeep
        simp [hkeep]
  · induction record with
    | nil => rfl
    | cons field rest ih =>
      have hrest : ∀ p ∈ rest, 2 ≤ (goSplit p.1 "__").length := fun p hp =>
        hsep p (List.mem_cons_of_mem field hp)
      simp only [extractVectors, keepField, ih hrest, List.map_cons, if_true]

/-- Witness for C3 at the spec's example: projection `{"feat1"}`, decoded
fields `{"ns__feat1", "ns__feat2"}`, `fullFeatureNames=true` yields exactly
one vector, named `"ns__feat1"`; with no projection both are kept. -/
theorem extract_projection_filtering_witness :
    extractVectors ⟨⟨"ns", some ⟨[⟨"feat1"⟩]⟩⟩⟩ true 1 ⟨0, 0⟩
        [("ns__feat1", [1]), ("ns__feat2", [2])] =
      .ok [⟨"ns__feat1", [1], [.PRESENT], [some ⟨0, 0⟩]⟩]
    ∧ extractVectors ⟨⟨"ns", none⟩⟩ true 1 ⟨0, 0⟩
        [("ns__feat1", ([1] : List Nat)), ("ns__feat2", [2])] =
      .ok [⟨"ns__feat1", [1], [.PRESENT], [some ⟨0, 0⟩]⟩,
           ⟨"ns__feat2", [2], [.PRESENT], [some ⟨0, 0⟩]⟩] := by
  have h := extract_projection_filtering (α := Nat) ⟨[⟨"feat1"⟩]⟩ "ns"
    [("ns__feat1", [1]), ("ns__feat2", [2])] 1 ⟨0, 0⟩ (by decide)
  exact ⟨by rw [h.1]; rfl, by rw [h.2]; rfl⟩

/-- C5: every vector produced by a successful reconciliation (with every
decoded column of length `numRows`) has all-`PRESENT` statuses, no `nil`
timestamp, and values, statuses and timestamps all of length `numRows`. -/
theorem extract_stamping (fv : OnDemandFeatureView) (fullFeatureNames : Bool)
    (record : List (String × List α)) (numRows : Nat) (now : Timestamp)
    (vecs : List (FeatureVector α))
    (hcols : ∀ p ∈ record, p.2.length = numRows)
    (hok : extractVectors fv fullFeatureNames numRows now record = .ok vecs) :
    ∀ v ∈ vecs,
      (∀ s ∈ v.Statuses, s = .PRESENT)
      ∧ (∀ ts ∈ v.Timestamps, ts ≠ none)
      ∧ v.Values.length = numRows
      ∧ v.Statuses.length = numRows
      ∧ v.Timestamps.length = numRows := by
  induction record generalizing vecs with
  | nil =>
    simp only [extractVectors, Except.ok.injEq] at hok
    subst hok
    intro v hv
    cases hv
  | cons field rest ih =>
    have hrest : ∀ p ∈ rest, p.2.length = numRows := fun p hp =>
      hcols p (List.mem_cons_of_mem field hp)
    cases hkeepEq : keepField fv fullFeatureNames field.1 with
    | error e =>
      simp only [extractVectors, hkeepEq] at hok
      exact Except.noConfusion hok
    | ok keep =>
      cases hrec : extractVectors fv fullFeatureNames numRows now rest with
      | error e =>
        simp only [extractVectors, hkeepEq, hrec] at hok
        exact Except.noConfusion hok
      | ok tail =>
        simp only [extractVectors, hkeepEq, hrec] at hok
        have htail := ih tail hrest hrec
        by_cases hk : keep
        · rw [if_pos hk] at hok
          cases hok
          intro v hv
          rcases List.mem_cons.1 hv with hv | hv
          · subst hv
            refine ⟨fun s hs => ?_, fun ts hts => ?_, ?_, ?_, ?_⟩
            · exact List.eq_of_mem_replicate hs
            · have := List.eq_of_mem_replicate hts
              simp [this]
            · exact hcols field (List.mem_cons_self field rest)
            · simp [mkTransformedVector, presentStatuses]
            · simp [mkTransformedVector, nowTimestamps]
          · exact htail v hv
        · rw [if_neg hk] at hok
          cases hok
          exact htail

/-- Witness for C5: instantiating the theorem at a concrete one-column,
three-row record (discharging both hypotheses) shows the produced vector's
values have length `numRows = 3`. -/
theorem extract_stamping_witness :
    (mkTransformedVector 3 ⟨0, 0⟩ ("f", [3, 1, 4]) : FeatureVector Nat).Values.length = 3 :=
  (extract_stamping ⟨⟨"view", none⟩⟩ false [("f", [3, 1, 4])] 3 ⟨0, 0⟩
      [mkTransformedVector 3 ⟨0, 0⟩ ("f", [3, 1, 4])] (by decide) rfl
      (mkTransformedVector 3 ⟨0, 0⟩ ("f", [3, 1, 4]))
      (List.mem_singleton.2 rfl)).2.2.1

/-- A successful conversion pass preserves the entries' names in order. -/
theorem convertColumns_ok_names (convert : ρ → Except ε (List α))
    (l : List (String × ρ)) (cols : List (String × List α))
    (h : convertColumns convert l = .ok cols) :
    cols.map Prod.fst = l.map Prod.fst := by
  induction l generalizing cols with
  | nil =>
    simp only [convertColumns, Except.ok.injEq] at h
    subst h
    rfl
  | cons p rest ih =>
    obtain ⟨n, v⟩ := p
    cases hc : convert v with
    | error e =>
      simp only [convertColumns, hc] at h
      exact Except.noConfusion h
    | ok arr =>
      cases hrec : convertColumns convert rest with
      | error e =>
        simp only [convertColumns, hc, hrec] at h
        exact Except.noConfusion h
      | ok tail =>
        simp only [convertColumns, hc, hrec, Except.ok.injEq] at h
        subst h
        simp [ih tail hrec]

/-- A conversion pass fails only with the error of one of its entries. -/
theorem convertColumns_error_mem (convert : ρ → Except ε (List α))
    (l : List (String × ρ)) (e : ε)
    (h : convertColumns convert l = .error e) :
    ∃ p ∈ l, convert p.2 = .error e := by
  induction l with
  | nil =>
    simp only [convertColumns] at h
    exact Except.noConfusion h
  | cons p rest ih =>
    obtain ⟨n, v⟩ := p
    cases hc : convert v with
    | error e' =>
      simp only [convertColumns, hc, Except.error.injEq] at h
      subst h
      exact ⟨(n, v), List.mem_cons_self _ _, hc⟩
    | ok arr =>
      cases hrec : convertColumns convert rest with
      | error e' =>
        simp only [convertColumns, hc, hrec, Except.error.injEq] at h
        subst h
        obtain ⟨q, hq, hcq⟩ := ih hrec
        exact ⟨q, List.mem_cons_of_mem _ hq, hcq⟩
      | ok tail =>
        simp only [convertColumns, hc, hrec] at h
        exact Except.noConfusion h

/-- Every entry of a successful conversion pass converted successfully. -/
theorem convertColumns_all_ok (convert : ρ → Except ε (List α))
    (l : List (String × ρ)) (cols : List (String × List α))
    (h : convertColumns convert l = .ok cols) :
    ∀ p ∈ l, (convert p.2).isOk := by
  induction l generalizing cols with
  | nil =>
    intro p hp
    cases hp
  | cons q rest ih =>
    obtain ⟨n, v⟩ := q
    cases hc : convert v with
    | error e =>
      simp only [convertColumns, hc] at h
      exact Except.noConfusion h
    | ok arr =>
      cases hrec : convertColumns convert rest with
      | error e =>
        simp only [convertColumns, hc, hrec] at h
        exact Except.noConfusion h
      | ok tail =>
        intro p hp
        rcases List.mem_cons.1 hp with hp | hp
        · subst hp
          simp [hc, Except.isOk, Except.toBool]
        · exact ih tail hrec p hp

/-- C6: a successfully built record's columns are the feature vectors first
(input order), then the request-data columns, then the entity-row columns,
each mapping in iteration order; if any conversion fails, the build returns a
conversion error of one of the mapping entries and no record; and a failing
conversion in either mapping makes the whole build fail. -/
theorem build_record_order_and_failure (convert : ρ → Except ε (List α))
    (features : List (InputFeatureVector α))
    (requestData entityRows : List (String × ρ)) :
    (∀ rec, buildInputRecord convert features requestData entityRows = .ok rec →
        rec.map Prod.fst = features.map InputFeatureVector.Name
          ++ requestData.map Prod.fst ++ entityRows.map Prod.fst)
    ∧ (∀ e, buildInputRecord convert features requestData entityRows = .error e →
        ∃ p, (p ∈ requestData ∨ p ∈ entityRows) ∧ convert p.2 = .error e)
    ∧ ((∃ p, (p ∈ requestData ∨ p ∈ entityRows) ∧ ¬ (convert p.2).isOk) →
        ∃ e, buildInputRecord convert features requestData entityRows = .error e) := by
  refine ⟨?_, ?_, ?_⟩
  · intro rec hok
    cases hreq : convertColumns convert requestData with
    | error e =>
      simp only [buildInputRecord, hreq] at hok
      exact Except.noConfusion hok
    | ok reqCols =>
      cases hent : convertColumns convert entityRows with
      | error e =>
        simp only [buildInputRecord, hreq, hent] at hok
        exact Except.noConfusion hok
      | ok entCols =>
        simp only [buildInputRecord, hreq, hent, Except.ok.injEq] at hok
        subst hok
        simp [convertColumns_ok_names convert requestData reqCols hreq,
          convertColumns_ok_names convert entityRows entCols hent]
  · intro e herr
    cases hreq : convertColumns convert requestData with
    | error e' =>
      simp only [buildInputRecord, hreq, Except.error.injEq] at herr
      subst herr
      obtain ⟨p, hp, hcp⟩ := convertColumns_error_mem convert requestData e' hreq
      exact ⟨p, Or.inl hp, hcp⟩
    | ok reqCols =>
      cases hent : convertColumns convert entityRows with
      | error e' =>
        simp only [buildInputRecord, hreq, hent, Except.error.injEq] at herr
        subst herr
        obtain ⟨p, hp, hcp⟩ := convertColumns_error_mem convert entityRows e' hent
        exact ⟨p, Or.inr hp, hcp⟩
      | ok entCols =>
        simp only [buildInputRecord, hreq, hent] at herr
        exact Except.noConfusion herr
  · rintro ⟨p, hp, hbad⟩
    cases hreq : convertColumns convert requestData with
    | error e => exact ⟨e, by simp [buildInputRecord, hreq]⟩
    | ok reqCols =>
      cases hent : convertColumns convert entityRows with
      | error e => exact ⟨e, by simp [buildInputRecord, hreq, hent]⟩
      | ok entCols =>
        exfalso
        apply hbad
        rcases hp with hp | hp
        · exact convertColumns_all_ok convert requestData reqCols hreq p hp
        · exact convertColumns_all_ok convert entityRows entCols hent p hp

/-- The event trace of `getTransformation` is either empty (no connection was
ever established) or exactly open-call-close. -/
theorem getTransformation_events (env : TransformCallEnv ε)
    (extract : List Nat → Except ε Out) :
    (getTransformation env extract).events = []
    ∨ (getTransformation env extract).events = [.connOpened, .rpcCalled, .connClosed] := by
  cases h1 : env.newFileWriter with
  | error e => exact Or.inl (by simp only [getTransformation, h1])
  | ok u =>
    cases h2 : env.writeRecord with
    | error e => exact Or.inl (by simp only [getTransformation, h1, h2])
    | ok payload =>
      cases h3 : env.dial with
      | error e => exact Or.inl (by simp only [getTransformation, h1, h2, h3])
      | ok v =>
        cases h4 : env.rpcCall payload with
        | error e => exact Or.inr (by simp only [getTransformation, h1, h2, h3, h4])
        | ok responseBytes =>
          cases h5 : extract responseBytes with
          | error e => exact Or.inr (by simp only [getTransformation, h1, h2, h3, h4, h5])
          | ok vecs => exact Or.inr (by simp only [getTransformation, h1, h2, h3, h4, h5])

/-- C4: a serialization failure (writer construction or record write), a dial
failure or an RPC failure makes `GetTransformation` return exactly that error
with a `nil` vector slice; in the serialization and dial cases no connection
was ever established, in the RPC case the connection is closed before
returning; on every path the number of connection-open events equals the
number of connection-close events and at most one RPC call is issued. -/
theorem transform_failure_semantics (env : TransformCallEnv ε)
    (extract : List Nat → Except ε Out) :
    (∀ e, env.newFileWriter = .error e →
        getTransformation env extract = ⟨none, some e, []⟩)
    ∧ (∀ e, env.newFileWriter = .ok () → env.writeRecord = .error e →
        getTransformation env extract = ⟨none, some e, []⟩)
    ∧ (∀ e payload, env.newFileWriter = .ok () → env.writeRecord = .ok payload →
        env.dial = .error e →
        getTransformation env extract = ⟨none, some e, []⟩)
    ∧ (∀ e payload, env.newFileWriter = .ok () → env.writeRecord = .ok payload →
        env.dial = .ok () → env.rpcCall payload = .error e →
        getTransformation env extract
          = ⟨none, some e, [.connOpened, .rpcCalled, .connClosed]⟩)
    ∧ (getTransformation env extract).events.count .connOpened
        = (getTransformation env extract).events.count .connClosed
    ∧ (getTransformation env extract).events.count .rpcCalled ≤ 1 := by
  refine ⟨?_, ?_, ?_, ?_, ?_, ?_⟩
  · intro e h
    simp only [getTransformation, h]
  · intro e h1 h2
    simp only [getTransformation, h1, h2]
  · intro e payload h1 h2 h3
    simp only [getTransformation, h1, h2, h3]
  · intro e payload h1 h2 h3 h4
    simp only [getTransformation, h1, h2, h3, h4]
  · rcases getTransformation_events env extract with h | h <;> rw [h] <;> decide
  · rcases getTransformation_events env extract with h | h <;> rw [h] <;> decide

/-- Witness for C4: on the concrete oracle whose dial fails, the call returns
the dial error, a `nil` vector slice and an empty event trace. -/
theorem transform_failure_semantics_witness :
    getTransformation demoEnvDialFail (fun _ => (.ok 0 : Except String Nat))
      = ⟨none, some "dial failed", []⟩ :=
  (transform_failure_semantics demoEnvDialFail _).2.2.1 "dial failed" [1] rfl rfl rfl

/-- Witness for C6: with the concrete converter (`some` converts, `none`
fails), the all-good build produces columns named `f`, `r`, `e` in order, and
replacing the entity value by a failing one aborts the build with an error. -/
theorem build_record_order_and_failure_witness :
    (∃ rec, buildInputRecord demoConvert [⟨"f", [1]⟩] [("r", some [2])] [("e", some [3])]
        = .ok rec ∧ rec.map Prod.fst = ["f", "r", "e"])
    ∧ (∃ e, buildInputRecord demoConvert [⟨"f", [1]⟩] [("r", some [2])] [("e", none)]
        = .error e) := by
  constructor
  · refine ⟨_, rfl, ?_⟩
    exact (build_record_order_and_failure demoConvert [⟨"f", [1]⟩] [("r", some [2])]
      [("e", some [3])]).1 _ rfl
  · exact (build_record_order_and_failure demoConvert [⟨"f", [1]⟩] [("r", some [2])]
      [("e", none)]).2.2 ⟨("e", none), Or.inr (List.mem_singleton.2 rfl),
        by simp [demoConvert, Except.isOk, Except.toBool]⟩

/-- Every successfully parsed column populates at most one representation. -/
theorem unmarshal_populated_le_one :
    ∀ (xs : List JsonVal) (u : RepeatedValueGo),
      unmarshalRepeatedValue xs = .ok u → populatedCount u ≤ 1 := by
  intro xs u h
  unfold unmarshalRepeatedValue at h
  repeat' split at h
  all_goals first
    | exact Except.noConfusion h
    | (injection h with h
       subst h
       simp [populatedCount, popCount]
       try (split <;> simp))

/-- C8: parsing infers the representation from the first element —
`[1, 2, 3]` becomes the int64 list `[1, 2, 3]`, `[1.2, 2.3]` becomes a
float64 list, `[[1, 2], [3, 4]]` becomes the int64 list-of-lists
`[[1, 2], [3, 4]]` — and every successfully parsed column has at most one
populated representation. -/
theorem unmarshal_infers_from_first_element :
    unmarshalRepeatedValue [.num 1, .num 2, .num 3] = .ok { int64Val := [1, 2, 3] }
    ∧ unmarshalRepeatedValue [.num (mkRat 12 10), .num (mkRat 23 10)]
        = .ok { doubleVal := [mkRat 12 10, mkRat 23 10] }
    ∧ unmarshalRepeatedValue [.arr [.num 1, .num 2], .arr [.num 3, .num 4]]
        = .ok { int64ListVal := [[1, 2], [3, 4]] }
    ∧ ∀ xs u, unmarshalRepeatedValue xs = .ok u → populatedCount u ≤ 1 := by
  refine ⟨by rfl, by rfl, by rfl, unmarshal_populated_le_one⟩

/-- Witness for C8: the at-most-one-representation conjunct applied to the
concrete parse of `[1, 2, 3]`. -/
theorem unmarshal_infers_witness :
    populatedCount { int64Val := [1, 2, 3] } ≤ 1 :=
  unmarshal_infers_from_first_element.2.2.2 [.num 1, .num 2, .num 3] _ (by rfl)

/-- C9: narrowing is the identity when the populated representation already
matches the declared type (an int32 column under declared `INT32`, an int64
column under declared `INT64`); narrowing the int64 column `[0..9]` to a
declared 32-bit type clears the int64 representation and populates the
32-bit representation with the same values; an element outside the 32-bit
range makes the narrowing fail with a range error; and a successful `INT32`
narrowing is idempotent. -/
theorem typecast_narrowing :
    (∀ u, u.int32Val ≠ [] → u.int64Val = [] →
        typecastToEntitySchemaType u .INT32 = .ok u)
    ∧ (∀ u, u.int64Val ≠ [] → typecastToEntitySchemaType u .INT64 = .ok u)
    ∧ (typecastToEntitySchemaType { int64Val := [0, 1, 2, 3, 4, 5, 6, 7, 8, 9] } .INT32
        = .ok { int32Val := [0, 1, 2, 3, 4, 5, 6, 7, 8, 9] })
    ∧ (∀ u, (∃ v ∈ u.int64Val, v < int32Min ∨ int32Max < v) →
        typecastToEntitySchemaType u .INT32 = .error .rangeError)
    ∧ (∀ u u', typecastToEntitySchemaType u .INT32 = .ok u' →
        typecastToEntitySchemaType u' .INT32 = .ok u') := by
  refine ⟨?_, ?_, by rfl, ?_, ?_⟩
  · intro u h32 h64
    simp [typecastToEntitySchemaType, h64]
  · intro u h
    rfl
  · intro u hex
    obtain ⟨v, hv, hout⟩ := hex
    have hne : ¬ u.int64Val.isEmpty = true := by
      cases hu : u.int64Val with
      | nil => rw [hu] at hv; cases hv
      | cons a l => simp [hu]
    have hall : u.int64Val.all (fun v => decide (int32Min ≤ v) && decide (v ≤ int32Max))
        = false := by
      rw [List.all_eq_false]
      refine ⟨v, hv, ?_⟩
      rcases hout with h | h <;> simp <;> omega
    simp [typecastToEntitySchemaType, hne, hall]
  · intro u u' h
    simp only [typecastToEntitySchemaType] at h
    by_cases he : u.int64Val.isEmpty = true
    · rw [if_pos he] at h
      injection h with h
      subst h
      simp [typecastToEntitySchemaType, he]
    · rw [if_neg he] at h
      by_cases ha : u.int64Val.all
          (fun v => decide (int32Min ≤ v) && decide (v ≤ int32Max)) = true
      · rw [if_pos ha] at h
        injection h with h
        subst h
        simp [typecastToEntitySchemaType]
      · rw [if_neg ha] at h
        exact Except.noConfusion h

/-- Witness for C9: the no-op, already-declared-type and range-error
conjuncts applied at concrete columns. -/
theorem typecast_narrowing_witness :
    typecastToEntitySchemaType { int32Val := [5] } .INT32 = .ok { int32Val := [5] }
    ∧ typecastToEntitySchemaType { int64Val := [7] } .INT64 = .ok { int64Val := [7] }
    ∧ typecastToEntitySchemaType { int64Val := [2 ^ 40] } .INT32 = .error .rangeError := by
  refine ⟨typecast_narrowing.1 _ (by decide) rfl,
    typecast_narrowing.2.1 _ (by decide),
    typecast_narrowing.2.2.2.1 _ ⟨2 ^ 40, by decide, Or.inr (by decide)⟩⟩

end Feast
